import Mathlib

/-!
Verification of the TDM (time-domain multiplexing) program module
(strawberryfields/tdm/tdmprogram.py) against its natural-language
specification.

The Python source is shallowly embedded: gate arguments are a tagged
variant (Python distinguishes float values, other numbers and symbolic
placeholders by runtime type inspection), commands are records of an
operation name, a measurement flag, an argument list and a target
register list, and the mutable TDMProgram object is an explicit state
record.  Fallible code returns Except.  Numeric parameter values are
modelled as rationals.
-/

set_option maxRecDepth 4000

deriving instance DecidableEq for Except

namespace TDM

/-- A Python value sitting in an operation's parameter list `op.p`.
`float` is a value whose Python runtime type is exactly float;
`int` is any other concrete number (Python int);
`symbolic n` is the free parameter named `p{n}` created by `context`
(the integer is the index parsed back from the name, see apply_op). -/
inductive PyVal where
  | float (v : ℚ)
  | int (v : ℤ)
  | symbolic (idx : Nat)
deriving DecidableEq, Repr

/-- Python `type(x) == float` (the concreteness test used by compile). -/
def PyVal.isFloat : PyVal → Bool
  | .float _ => true
  | _ => false

/-- Python `x == 0` on a parameter value: numeric zero compares equal,
a symbolic free parameter compares unequal to 0. -/
def PyVal.eqZero : PyVal → Bool
  | .float v => v = 0
  | .int v => v = 0
  | .symbolic _ => false

/-- A circuit command: operation class name, whether the operation is a
measurement (`isinstance(cmd.op, ops.Measurement)`), its parameter list
`cmd.op.p`, and the indices `r.ind` of its target registers. -/
structure Cmd where
  opName : String
  isMeasurement : Bool
  args : List PyVal
  reg : List Nat
deriving DecidableEq, Repr

/-- The `shift` keyword of `TDMProgram.context`: the string "default",
an integer, or any other value (the source's if/elif chain then matches
neither branch and leaves the register list unchanged). -/
inductive ShiftPolicy where
  | default
  | int (n : ℤ)
  | other
deriving DecidableEq, Repr

/-- Error kinds raised by the TDM module (ValueError / TypeError /
IndexError-or-KeyError during reshaping). -/
inductive TDMErr where
  | lengthMismatch
  | invalidCopies
  | missingMeasurement
  | measurementCountMismatch
  | reshapeInconsistency
deriving DecidableEq, Repr

/-- The `copies` argument as received: a Python int, or a value of any
other type (`isinstance(copies, int)` fails). -/
inductive CopiesVal where
  | int (n : ℤ)
  | nonInt
deriving DecidableEq, Repr

/-! ## List helpers mirroring Python slicing -/

/-- The cut position of the Python slices `l[n:]` / `l[:n]` for an
arbitrary integer `n` (negative indices count from the end, clamped). -/
def sliceIdx (l : List α) (n : ℤ) : Nat :=
  if 0 ≤ n then n.toNat else l.length - min n.natAbs l.length

/-- Source `shift_by(l, n) = l[n:] + l[:n]`: rotate a list.  Both
Python slices cut at the same position, so this is drop-k ++ take-k. -/
def shift_by (l : List α) (n : ℤ) : List α :=
  l.drop (sliceIdx l n) ++ l.take (sliceIdx l n)

/-- Python slice assignment `l[start:start+len] = repl` where the
replacement has exactly the slice's length (the only form the source
uses: it assigns a rotation of the slice back to itself). -/
def sliceAssign (l : List α) (start len : Nat) (repl : List α) : List α :=
  l.take start ++ repl ++ l.drop (start + len)

/-- Python `l * k`: k concatenated copies of a list. -/
def listMul (l : List α) (k : Nat) : List α :=
  (List.replicate k l).flatten

/-- `math.ceil(a / b)` for natural operands (exact, no float rounding). -/
def ceilDiv (a b : Nat) : Nat :=
  (a + b - 1) / b

/-- `[i for j in zip(*ls) for i in j]`: transpose truncated to the
shortest row, flattened — the interleaving used by _get_mode_order. -/
def interleave : List (List Nat) → List Nat
  | [] => []
  | l :: ls =>
    let L := ls.foldl (fun a x => min a x.length) l.length
    (List.range L).flatMap (fun j => (l :: ls).map (fun xs => xs.getD j 0))

/-- Python `max(N)` (junk 0 on an empty list, where Python raises). -/
def maxN (N : List Nat) : Nat := N.foldl max 0

/-! ## Source functions -/

/-- Source `get_modes(cmd, q)`: the registers of `q` selected by the
command's register indices (`itemgetter(*[r.ind for r in cmd.reg])(q)`).
An out-of-range index raises IndexError in Python; here `getD` returns
junk and theorems carry the in-range hypothesis. -/
def get_modes (cmd : Cmd) (q : List Nat) : List Nat :=
  cmd.reg.map (fun r => q.getD r 0)

/-- Source `validate_measurements(circuit, N)`: sum the register counts
of the measurement commands; error when zero, error when the sum is not
`len(N)` (the source writes `is not`, which on CPython's interned small
integers is inequality), else return the sum. -/
def validate_measurements (circuit : List Cmd) (N : List Nat) : Except TDMErr Nat :=
  let spatial_modes :=
    circuit.foldl (fun acc cmd => if cmd.isMeasurement then acc + cmd.reg.length else acc) 0
  if spatial_modes = 0 then .error .missingMeasurement
  else if spatial_modes ≠ N.length then .error .measurementCountMismatch
  else .ok spatial_modes

/-- Source `input_check(args, copies)`: the number of distinct sequence
lengths must be exactly one (`len(set(param_lengths)) != 1` raises, so
zero supplied sequences also raise), then `copies` must be a Python int
that is at least 1. -/
def input_check (args : List (List ℚ)) (copies : CopiesVal) : Except TDMErr Unit :=
  let param_lengths := args.map List.length
  if param_lengths.dedup.length ≠ 1 then .error .lengthMismatch
  else match copies with
    | .int n => if n < 1 then .error .invalidCopies else .ok ()
    | .nonInt => .error .invalidCopies

/-- Source `_get_mode_order(num_of_values, N)`: per band the range of
its register labels repeated `ceil(max(N)/band size)` times, the bands
interleaved, the result repeated to cover `num_of_values` entries and
cut to exactly that many. -/
def _get_mode_order (num_of_values : Nat) (N : List Nat) : List Nat :=
  let all_modes := (List.range N.length).map (fun i =>
    let ra := List.range' ((N.take i).sum) (N.getD i 0)
    listMul ra (ceilDiv (maxN N) ra.length))
  let mode_order := interleave all_modes
  let mode_order2 := listMul mode_order (ceilDiv num_of_values mode_order.length)
  mode_order2.take num_of_values

/-- `all_samples[m].pop(0)` preceded by the dict lookup: the first
pending outcome of register `m` and the updated store, or none when no
outcome is left (Python: KeyError / IndexError). -/
def popFirst (samples : List (List ℚ)) (m : Nat) : Option (ℚ × List (List ℚ)) :=
  match samples.getD m [] with
  | [] => none
  | x :: xs => some (x, samples.set m xs)

/-- `if idx not in new_samples: new_samples[idx] = []` followed by
`new_samples[idx].append(v)` on an association list. -/
def dictAppend (d : List (Nat × List ℚ)) (k : Nat) (v : ℚ) : List (Nat × List ℚ) :=
  match d with
  | [] => [(k, [v])]
  | (k0, l) :: rest =>
    if k0 = k then (k0, l ++ [v]) :: rest else (k0, l) :: dictAppend rest k v

/-- The loop of `reshape_samples`: walk the mode order, pop the next
outcome of the visited register and append it to the logical channel
`modes[i % len(N)]`. -/
def reshape_go (modes : List Nat) (nb : Nat) :
    List Nat → Nat → List (List ℚ) → List (Nat × List ℚ) →
    Except TDMErr (List (Nat × List ℚ))
  | [], _, _, acc => .ok acc
  | m :: rest, i, samples, acc =>
    match popFirst samples m with
    | none => .error .reshapeInconsistency
    | some (x, samples2) =>
      reshape_go modes nb rest (i + 1) samples2 (dictAppend acc (modes.getD (i % nb) 0) x)

/-- Source `reshape_samples(all_samples, modes, N)`: the raw outcome
store is indexed by physical register label; the schedule is cut to the
total number of recorded outcomes. -/
def reshape_samples (all_samples : List (List ℚ)) (modes : List Nat) (N : List Nat) :
    Except TDMErr (List (Nat × List ℚ)) :=
  let num_of_values := (all_samples.map List.length).sum
  let mode_order := _get_mode_order num_of_values N
  reshape_go modes N.length mode_order 0 all_samples []

/-- The slice list `sm` built in `unroll`: band `i` occupies
`[sum(N[:i]), sum(N[:i]) + N[i])`. -/
def band_slices (N : List Nat) : List (Nat × Nat) :=
  (List.range N.length).map (fun i => ((N.take i).sum, N.getD i 0))

/-- The loop `for j in range(len(N)): q_aux[sm[j]] = shift_by(q_aux[sm[j]], 1)`. -/
def apply_band_shifts : List (Nat × Nat) → List Nat → List Nat
  | [], q => q
  | (start, len) :: rest, q =>
    apply_band_shifts rest (sliceAssign q start len (shift_by ((q.drop start).take len) 1))

/-- The default shift of one time bin: every band's window rotated left
by one, independently. -/
def default_shift_step (N : List Nat) (q : List Nat) : List Nat :=
  apply_band_shifts (band_slices N) q

/-- The register update at the end of one time bin, by shift policy. -/
def shift_step (N : List Nat) (shift : ShiftPolicy) (q : List Nat) : List Nat :=
  match shift with
  | .default => default_shift_step N q
  | .int n => shift_by q n
  | .other => q

/-- The TDMProgram instance state: band spec, repeat count, bound
parameter sequences, shift policy, the counts frozen at context exit,
the measured-mode log, the rolled and active circuits, the unrolled
cache, and the register pool. -/
structure TDMState where
  N : List Nat
  copies : Nat
  tdm_params : List (List ℚ)
  shift : ShiftPolicy
  timebins : Nat
  total_timebins : Nat
  spatial_modes : Nat
  measured_modes : List Nat
  rolled_circuit : List Cmd
  circuit : List Cmd
  unrolled_circuit : Option (List Cmd)
  register : List Nat
deriving DecidableEq, Repr

/-- Source `TDMProgram.apply_op(cmd, q, t)`: copy the parameter list;
when the FIRST parameter is symbolic replace it by
`tdm_params[int(name[1:])][t % timebins]`; parameters past the first
are never inspected.  Emit a new command of the same operation on
`get_modes(cmd, q)`.  (On an empty parameter list Python's `params[0]`
raises IndexError; TDM operations carry at least one parameter, and the
fallback branch returns the list unchanged.) -/
def apply_op (tdm_params : List (List ℚ)) (timebins : Nat) (cmd : Cmd)
    (q : List Nat) (t : Nat) : Cmd :=
  let params :=
    match cmd.args with
    | PyVal.symbolic idx :: rest =>
      PyVal.float ((tdm_params.getD idx []).getD (t % timebins) 0) :: rest
    | ps => ps
  { opName := cmd.opName, isMeasurement := cmd.isMeasurement,
    args := params, reg := get_modes cmd q }

/-- One iteration of the unroll loop body: append the resolved copy of
every rolled command for time step `t`, then shift the register list. -/
def unroll_step (s : TDMState) (acc : List Cmd × List Nat) (t : Nat) :
    List Cmd × List Nat :=
  (acc.1 ++ s.rolled_circuit.map (fun cmd => apply_op s.tdm_params s.timebins cmd acc.2 t),
   shift_step s.N s.shift acc.2)

/-- The unroll computation: the emitted command list and the final
register list after `total_timebins` steps starting from the program's
register pool. -/
def unroll_fold (s : TDMState) : List Cmd × List Nat :=
  (List.range s.total_timebins).foldl (unroll_step s) ([], s.register)

/-- The register list as it stands after `t` completed time steps,
starting from `q`. -/
def qIter (N : List Nat) (shift : ShiftPolicy) (q : List Nat) : Nat → List Nat
  | 0 => q
  | t + 1 => shift_step N shift (qIter N shift q t)

/-- The register list after `t` completed time steps of `unroll`. -/
def qAfter (s : TDMState) (t : Nat) : List Nat :=
  qIter s.N s.shift s.register t

/-- Source `TDMProgram.unroll()`: when a cached unrolled circuit
exists, activate it and return; otherwise record the measured modes of
the rolled circuit, run the time-step loop, activate the result and
cache a copy of it. -/
def unroll (s : TDMState) : TDMState :=
  match s.unrolled_circuit with
  | some c => { s with circuit := c }
  | none =>
    let measured := (s.rolled_circuit.filter (fun c => c.isMeasurement)).map
      (fun c => c.reg.headD 0)
    let out := unroll_fold s
    { s with measured_modes := s.measured_modes ++ measured,
             circuit := out.1,
             unrolled_circuit := some out.1 }

/-- Source `TDMProgram.context(*args, copies=1, shift="default")`: run
`input_check` first; only on success are the parameter sequences, the
repeat count and the shift policy stored (and the context entered, so
no command is accepted when the check fails). -/
def tdm_context (s : TDMState) (args : List (List ℚ)) (copies : CopiesVal)
    (shift : ShiftPolicy) : Except TDMErr TDMState :=
  match input_check args copies with
  | .error e => .error e
  | .ok _ =>
    .ok { s with tdm_params := args,
                 copies := (match copies with | .int n => n.toNat | .nonInt => 0),
                 shift := shift }

/-- Source `TDMProgram.__exit__` on the no-exception path: validate the
measurements, then freeze `timebins = len(tdm_params[0])`,
`total_timebins = timebins * copies` and the rolled circuit. -/
def tdm_exit (s : TDMState) : Except TDMErr TDMState :=
  match validate_measurements s.circuit s.N with
  | .error e => .error e
  | .ok sm =>
    .ok { s with spatial_modes := sm,
                 timebins := (s.tdm_params.headD []).length,
                 total_timebins := (s.tdm_params.headD []).length * s.copies,
                 rolled_circuit := s.circuit }

/-! ## Device compilation (TDMProgram.compile, third-check loop) -/

/-- Errors of `TDMProgram.compile`: the two topology CircuitErrors, the
bare `assert` on trailing parameters (AssertionError), the parameter
CircuitError, and the Python KeyError / IndexError a malformed device
or program produces inside the loop. -/
inductive CErr where
  | topologyMismatch
  | modeMismatch
  | assertionFailed
  | parameterOutOfRange
  | keyError
  | indexError
deriving DecidableEq, Repr

/-- Modelled from the spec: the device's declared range for a named
argument, an inclusive numeric interval or a categorical set.  The
DeviceSpec class owning `gate_parameters` and its membership test is
not part of this repository's sources; section 6 of the spec describes
it as "an inclusive numeric range or categorical set". -/
inductive ParamRange where
  | interval (lo hi : ℚ)
  | categorical (vals : List ℚ)
deriving DecidableEq, Repr

/-- Modelled from the spec: `x in param_range` — inclusive bounds for a
numeric interval, membership for a categorical set. -/
def ParamRange.containsQ : ParamRange → ℚ → Bool
  | .interval lo hi, x => decide (lo ≤ x) && decide (x ≤ hi)
  | .categorical vals, x => decide (x ∈ vals)

/-- One entry of `device_layout.operations`: operation name, declared
target modes, declared argument names. -/
structure DeviceOp where
  op : String
  modes : List Nat
  args : List String
deriving DecidableEq, Repr

/-- The parts of the external DeviceSpec that compile consumes. -/
structure Device where
  operations : List DeviceOp
  gate_parameters : List (String × ParamRange)
deriving DecidableEq, Repr

/-- `device.gate_parameters[param_name]` (none = Python KeyError). -/
def lookupRange : List (String × ParamRange) → String → Option ParamRange
  | [], _ => none
  | (n, r) :: rest, name => if n = name then some r else lookupRange rest name

/-- The guarded assertion at the top of compile's per-operation block:
`if len_params_device < len_params_program: for j in range(1,
len_params_program): assert p[j] == 0`.  Note the loop starts at index
1, not at index `len_params_device`. -/
def assertPhase (declaredLen : Nat) (cmdParams : List PyVal) : Except CErr Unit :=
  if declaredLen < cmdParams.length then
    if (cmdParams.drop 1).all PyVal.eqZero then .ok () else .error .assertionFailed
  else .ok ()

/-- compile's inner loop `for k, param_name in enumerate(param_names)`
with the running `counter`: a parameter of runtime type float is
range-checked directly; ANY other parameter (symbolic placeholder, but
also a Python int) takes the symbolic branch, which range-checks every
value of `tdm_params[counter]` and increments the counter. -/
def checkParamNames (dev : Device) (tdm_params : List (List ℚ)) (cmdParams : List PyVal) :
    List String → Nat → Nat → Except CErr Unit
  | [], _, _ => .ok ()
  | name :: rest, k, counter =>
    match lookupRange dev.gate_parameters name with
    | none => .error .keyError
    | some range =>
      match cmdParams.get? k with
      | none => .error .indexError
      | some (PyVal.float v) =>
        if range.containsQ v then checkParamNames dev tdm_params cmdParams rest (k + 1) counter
        else .error .parameterOutOfRange
      | some _ =>
        match tdm_params.get? counter with
        | none => .error .indexError
        | some seq =>
          if seq.all (fun x => range.containsQ x) then
            checkParamNames dev tdm_params cmdParams rest (k + 1) (counter + 1)
          else .error .parameterOutOfRange

/-- compile's per-operation body: the trailing-parameter assertion,
then the argument-name loop with the counter starting at 0 (the source
resets `counter = 0` inside the loop over operations). -/
def checkOpParams (dev : Device) (tdm_params : List (List ℚ)) (op : DeviceOp)
    (cmd : Cmd) : Except CErr Unit :=
  match assertPhase op.args.length cmd.args with
  | .error e => .error e
  | .ok _ => checkParamNames dev tdm_params cmd.args op.args 0 0

/-- The loop `for i, operation in enumerate(device_layout.operations)`
(after the first two checks the operation list and the rolled circuit
have equal length, so pairing them is the source's parallel indexing). -/
def checkAllOps (dev : Device) (tdm_params : List (List ℚ)) :
    List (DeviceOp × Cmd) → Except CErr Unit
  | [] => .ok ()
  | (op, cmd) :: rest =>
    match checkOpParams dev tdm_params op cmd with
    | .error e => .error e
    | .ok _ => checkAllOps dev tdm_params rest

/-- Source `TDMProgram.compile`: gate-sequence check, mode-wiring
check, then the per-operation parameter check. -/
def compileTDM (rolled : List Cmd) (tdm_params : List (List ℚ)) (dev : Device) :
    Except CErr Unit :=
  if rolled.map (fun c => c.opName) ≠ dev.operations.map (fun o => o.op) then
    .error .topologyMismatch
  else if rolled.map (fun c => c.reg) ≠ dev.operations.map (fun o => o.modes) then
    .error .modeMismatch
  else checkAllOps dev tdm_params (dev.operations.zip rolled)

/-! ## Capacity check (TDMProgram.assert_number_of_modes) -/

/-- Declared capacity limits of a device:
`device.modes = {"temporal": {"max": …}, "concurrent": …, "spatial": …}`. -/
structure DeviceModes where
  temporalMax : Nat
  concurrent : Nat
  spatial : Nat
deriving DecidableEq, Repr

/-- A capacity CircuitError carrying the quantity its message names. -/
inductive CapacityError where
  | exceeded (quantityNamed : String)
deriving DecidableEq, Repr

/-- Source `TDMProgram.assert_number_of_modes(device)`: three strict
`>` comparisons.  The third raise's message text reads "... temporal
modes ..." (a copy of the first message), so the spatial violation's
error names "temporal". -/
def assert_number_of_modes (timebins concurr spatial : Nat) (d : DeviceModes) :
    Except CapacityError Unit :=
  if d.temporalMax < timebins then .error (.exceeded "temporal")
  else if d.concurrent < concurr then .error (.exceeded "concurrent")
  else if d.spatial < spatial then .error (.exceeded "temporal")
  else .ok ()

/-! ## Derived / specification-side definitions -/

/-- The number the spec calls the measurement count: the sum, over the
measurement commands of a circuit, of their target-register counts. -/
def measurement_target_count (circuit : List Cmd) : Nat :=
  ((circuit.filter (fun c => c.isMeasurement)).map (fun c => c.reg.length)).sum

/-- Whether every argument of every command is free of symbolic
placeholders (what full per-argument resolution would guarantee). -/
def args_fully_resolved (circuit : List Cmd) : Bool :=
  circuit.all (fun cmd => cmd.args.all (fun a =>
    match a with
    | PyVal.symbolic _ => false
    | _ => true))

/-- Whether the supplied `copies` value fails `isinstance(copies, int)
and copies >= 1`. -/
def badCopies : CopiesVal → Bool
  | .int n => decide (n < 1)
  | .nonInt => true

/-- The non-incremental form of compile's symbolic counter: how many of
the command's first `k` parameters are not of runtime type float. -/
def nonFloatCount (cmdParams : List PyVal) (k : Nat) : Nat :=
  ((cmdParams.take k).filter (fun p => !p.isFloat)).length

/-- compile's argument-name loop with the counter written in closed
form (the value checked against the device range at slot `k` is
`tdm_params[nonFloatCount k]` whenever the slot is not float-typed). -/
def checkNamesAmended (dev : Device) (tdm_params : List (List ℚ)) (cmdParams : List PyVal) :
    List String → Nat → Except CErr Unit
  | [], _ => .ok ()
  | name :: rest, k =>
    match lookupRange dev.gate_parameters name with
    | none => .error .keyError
    | some range =>
      match cmdParams.get? k with
      | none => .error .indexError
      | some (PyVal.float v) =>
        if range.containsQ v then checkNamesAmended dev tdm_params cmdParams rest (k + 1)
        else .error .parameterOutOfRange
      | some _ =>
        match tdm_params.get? (nonFloatCount cmdParams k) with
        | none => .error .indexError
        | some seq =>
          if seq.all (fun x => range.containsQ x) then
            checkNamesAmended dev tdm_params cmdParams rest (k + 1)
          else .error .parameterOutOfRange

/-- Per-operation body with the closed-form counter. -/
def checkOpParamsAmended (dev : Device) (tdm_params : List (List ℚ)) (op : DeviceOp)
    (cmd : Cmd) : Except CErr Unit :=
  match assertPhase op.args.length cmd.args with
  | .error e => .error e
  | .ok _ => checkNamesAmended dev tdm_params cmd.args op.args 0

/-- Operation loop with the closed-form counter. -/
def checkAllOpsAmended (dev : Device) (tdm_params : List (List ℚ)) :
    List (DeviceOp × Cmd) → Except CErr Unit
  | [] => .ok ()
  | (op, cmd) :: rest =>
    match checkOpParamsAmended dev tdm_params op cmd with
    | .error e => .error e
    | .ok _ => checkAllOpsAmended dev tdm_params rest

/-- compile with the parameter check in closed-counter form: float
arguments are range-checked directly; every non-float argument (a
symbolic placeholder, but equally a Python int) consumes the positional
sequence selected by the number of non-float arguments that precede it
in the same command — the counter restarts at 0 for every operation. -/
def compileAmended (rolled : List Cmd) (tdm_params : List (List ℚ)) (dev : Device) :
    Except CErr Unit :=
  if rolled.map (fun c => c.opName) ≠ dev.operations.map (fun o => o.op) then
    .error .topologyMismatch
  else if rolled.map (fun c => c.reg) ≠ dev.operations.map (fun o => o.modes) then
    .error .modeMismatch
  else checkAllOpsAmended dev tdm_params (dev.operations.zip rolled)

/-! ## Helper lemmas -/

lemma foldl_measurement_count (circuit : List Cmd) (a : Nat) :
    circuit.foldl (fun acc cmd => if cmd.isMeasurement then acc + cmd.reg.length else acc) a
      = a + measurement_target_count circuit := by
  induction circuit generalizing a with
  | nil => simp [measurement_target_count]
  | cons cmd rest ih =>
    simp only [List.foldl_cons]
    rw [ih]
    by_cases h : cmd.isMeasurement = true
    · rw [if_pos h]
      have hm : measurement_target_count (cmd :: rest)
          = cmd.reg.length + measurement_target_count rest := by
        simp [measurement_target_count, List.filter_cons, h]
      rw [hm]
      omega
    · rw [if_neg h]
      have hm : measurement_target_count (cmd :: rest) = measurement_target_count rest := by
        simp [measurement_target_count, List.filter_cons, h]
      rw [hm]

lemma dedup_const (l : List Nat) (c : Nat) (hne : l ≠ []) (hall : ∀ x ∈ l, x = c) :
    l.dedup = [c] := by
  induction l with
  | nil => exact absurd rfl hne
  | cons a rest ih =>
    have ha : a = c := hall a (by simp)
    cases rest with
    | nil => simp [ha]
    | cons b rest2 =>
      have hb : b = c := hall b (by simp)
      have hmem : a ∈ b :: rest2 := by
        rw [ha, hb]; simp
      rw [List.dedup_cons_of_mem hmem]
      exact ih (by simp) (fun x hx => hall x (by simp [hx]))

lemma dedup_length_ne_one (l : List Nat) (a b : Nat) (ha : a ∈ l) (hb : b ∈ l)
    (hne : a ≠ b) : l.dedup.length ≠ 1 := by
  intro hlen
  obtain ⟨x, hx⟩ := List.length_eq_one.mp hlen
  have ha2 : a ∈ l.dedup := List.mem_dedup.mpr ha
  have hb2 : b ∈ l.dedup := List.mem_dedup.mpr hb
  rw [hx, List.mem_singleton] at ha2 hb2
  exact hne (ha2.trans hb2.symm)

/-- A small concrete program state used as a base point for witnesses:
one band of one mode, one time bin, one parameter sequence. -/
def sInit : TDMState :=
  { N := [1], copies := 1, tdm_params := [[0]], shift := .default,
    timebins := 1, total_timebins := 1, spatial_modes := 0,
    measured_modes := [], rolled_circuit := [], circuit := [],
    unrolled_circuit := none, register := [0] }

/-! ## Claim C7: unroll is idempotent -/

/-- C7: `unroll()` is idempotent — the second call activates the cached
unrolled circuit and the resulting program state (in particular its
active circuit and its cache) is exactly the state the first call
produced. -/
theorem unroll_idempotent (s : TDMState) : unroll (unroll s) = unroll s := by
  cases h : s.unrolled_circuit with
  | some c => simp [unroll, h]
  | none => simp [unroll, h]

/-! ## Claim C3: capacity check -/

/-- C3 counterexample: a program whose concurrent-mode count (1) is
NOT equal to the device's declared concurrent capacity (2) — the claim
demands a capacity error — yet `assert_number_of_modes` accepts,
because the source only rejects a count strictly greater than the
capacity. -/
theorem capacity_counterexample :
    assert_number_of_modes 1 1 1 ⟨5, 2, 3⟩ = .ok () ∧ (1 : Nat) ≠ 2 := by
  decide

/-- C3 amended: the capacity check errors exactly when a count strictly
exceeds its limit (time bins > temporal max, concurrent modes >
concurrent capacity, spatial modes > spatial capacity) — excess, not
disequality.  The temporal and concurrent violations name their
quantity; the spatial violation's message reuses the temporal wording,
so it names "temporal". -/
theorem capacity_check_characterization (tb cm sm : Nat) (d : DeviceModes) :
    (assert_number_of_modes tb cm sm d = .ok ()
       ↔ tb ≤ d.temporalMax ∧ cm ≤ d.concurrent ∧ sm ≤ d.spatial)
    ∧ (d.temporalMax < tb →
        assert_number_of_modes tb cm sm d = .error (.exceeded "temporal"))
    ∧ (tb ≤ d.temporalMax → d.concurrent < cm →
        assert_number_of_modes tb cm sm d = .error (.exceeded "concurrent"))
    ∧ (tb ≤ d.temporalMax → cm ≤ d.concurrent → d.spatial < sm →
        assert_number_of_modes tb cm sm d = .error (.exceeded "temporal")) := by
  unfold assert_number_of_modes
  refine ⟨⟨fun h => ?_, fun h => ?_⟩, fun h1 => ?_, fun h1 h2 => ?_, fun h1 h2 h3 => ?_⟩
  · split_ifs at h with h1 h2 h3
    exact ⟨by omega, by omega, by omega⟩
  · rw [if_neg (by omega), if_neg (by omega), if_neg (by omega)]
  · rw [if_pos h1]
  · rw [if_neg (by omega), if_pos h2]
  · rw [if_neg (by omega), if_neg (by omega), if_pos h3]

/-- C3 witness: a program with 7 time bins against a device allowing 5
is rejected with the temporal capacity error. -/
theorem capacity_check_witness :
    assert_number_of_modes 7 1 1 ⟨5, 5, 5⟩ = .error (.exceeded "temporal") :=
  (capacity_check_characterization 7 1 1 ⟨5, 5, 5⟩).2.1 (by decide)

/-! ## Claim C4: trailing-parameter assertion -/

/-- C4 counterexample: the device layout declares 0 argument names for
the operation while the command carries 1 argument, which is the
nonzero value 5.  The claim requires compile to fail (every argument
beyond the first 0 declared must be zero, enforced explicitly), yet
compile accepts: the source's assertion loop starts at index 1, so
index 0 is never checked. -/
theorem trailing_assert_counterexample :
    compileTDM [⟨"MeasureFock", true, [PyVal.int 5], [0]⟩] []
        ⟨[⟨"MeasureFock", [0], []⟩], []⟩ = .ok ()
      ∧ (([PyVal.int 5].drop (0 : Nat)).all PyVal.eqZero) = false := by
  decide

/-- C4 amended: when the layout declares fewer argument names than the
command carries, compile asserts that every argument FROM INDEX 1 ON
equals numeric zero — independent of how many names are declared.  The
assertion phase succeeds exactly when nothing is declared short, or all
arguments past the first are zero; in particular an argument at index 0
is never checked, and arguments between index 1 and the declared count
are checked even though the claim exempts them. -/
theorem assert_phase_characterization (declaredLen : Nat) (ps : List PyVal) :
    assertPhase declaredLen ps = .ok ()
      ↔ (ps.length ≤ declaredLen ∨ (ps.drop 1).all PyVal.eqZero = true) := by
  unfold assertPhase
  split_ifs with h1 h2
  · exact iff_of_true rfl (Or.inr h2)
  · refine iff_of_false (by simp) ?_
    rintro (hle | hall)
    · omega
    · exact h2 hall
  · exact iff_of_true rfl (Or.inl (by omega))

/-! ## Claim C9: context-entry validation -/

/-- C9: entering the context with positional value-sequences of unequal
lengths fails with the length-mismatch error before any state is built;
when the length check passes (the checks are sequential in the source,
so a length failure is reported first), a `copies` value that is not a
positive integer fails with the type error at the same point. -/
theorem context_input_validation (s : TDMState) (args : List (List ℚ))
    (copies : CopiesVal) (shift : ShiftPolicy) :
    ((∃ xs, xs ∈ args ∧ ∃ ys, ys ∈ args ∧ xs.length ≠ ys.length) →
       tdm_context s args copies shift = .error .lengthMismatch)
    ∧ (args ≠ [] → (∀ xs, xs ∈ args → ∀ ys, ys ∈ args → xs.length = ys.length) →
       badCopies copies = true →
       tdm_context s args copies shift = .error .invalidCopies) := by
  constructor
  · rintro ⟨xs, hxs, ys, hys, hne⟩
    have hdedup : (args.map List.length).dedup.length ≠ 1 :=
      dedup_length_ne_one _ xs.length ys.length
        (List.mem_map_of_mem _ hxs) (List.mem_map_of_mem _ hys) hne
    simp only [tdm_context, input_check]
    rw [if_pos hdedup]
  · intro hne hall hbad
    have hconst : ∀ x ∈ args.map List.length, x = (args.headD []).length := by
      intro x hx
      obtain ⟨xs, hxs, rfl⟩ := List.mem_map.mp hx
      cases args with
      | nil => exact absurd rfl hne
      | cons a rest =>
        exact hall xs hxs a (by simp)
    have hmapne : args.map List.length ≠ [] := by
      cases args with
      | nil => exact absurd rfl hne
      | cons a rest => simp
    have hdedup : (args.map List.length).dedup = [(args.headD []).length] :=
      dedup_const _ _ hmapne hconst
    simp only [tdm_context, input_check]
    rw [if_neg (by rw [hdedup]; simp)]
    cases copies with
    | int n =>
      have hn : n < 1 := by simpa [badCopies] using hbad
      simp [hn]
    | nonInt => simp

/-- C9 witness: unequal sequence lengths are rejected with the length
error; equal lengths with a non-positive repeat count are rejected with
the type error. -/
theorem context_input_validation_witness :
    tdm_context sInit [[1], [2, 3]] (.int 1) .default = .error .lengthMismatch
    ∧ tdm_context sInit [[1], [2]] (.int 0) .default = .error .invalidCopies :=
  ⟨(context_input_validation sInit [[1], [2, 3]] (.int 1) .default).1
      ⟨[1], by simp, [2, 3], by simp, by simp⟩,
   (context_input_validation sInit [[1], [2]] (.int 0) .default).2
      (by simp) (by decide) (by decide)⟩

/-! ## Claim C5: context-exit measurement validation -/

/-- C5: at context exit the validator sums the target-register counts
over all measurement commands; zero measurements fail with the
missing-measurement error, a count differing from the number of
spatial bands (the length of N) fails with the count-mismatch error,
and otherwise the count is recorded as the program's spatial-mode count
(alongside freezing the time-bin counts and the rolled circuit). -/
theorem exit_measurement_validation (s : TDMState) :
    (measurement_target_count s.circuit = 0 →
       tdm_exit s = .error .missingMeasurement)
    ∧ (measurement_target_count s.circuit ≠ 0 →
       measurement_target_count s.circuit ≠ s.N.length →
       tdm_exit s = .error .measurementCountMismatch)
    ∧ (measurement_target_count s.circuit ≠ 0 →
       measurement_target_count s.circuit = s.N.length →
       tdm_exit s = .ok { s with
         spatial_modes := measurement_target_count s.circuit,
         timebins := (s.tdm_params.headD []).length,
         total_timebins := (s.tdm_params.headD []).length * s.copies,
         rolled_circuit := s.circuit }) := by
  have hfold := foldl_measurement_count s.circuit 0
  simp only [Nat.zero_add] at hfold
  refine ⟨fun h0 => ?_, fun h0 hne => ?_, fun h0 heq => ?_⟩
  · simp only [tdm_exit, validate_measurements, hfold]
    rw [if_pos h0]
  · simp only [tdm_exit, validate_measurements, hfold]
    rw [if_neg h0, if_pos hne]
  · simp only [tdm_exit, validate_measurements, hfold]
    rw [if_neg h0, if_neg (by simpa using heq)]

/-- C5 witness: a circuit with a single one-register measurement
against a single band passes and records spatial-mode count 1; the
theorem applied at that input. -/
theorem exit_measurement_validation_witness :
    tdm_exit { sInit with circuit := [⟨"MeasureHomodyne", true, [PyVal.float 0], [0]⟩] }
      = .ok { sInit with
          circuit := [⟨"MeasureHomodyne", true, [PyVal.float 0], [0]⟩],
          spatial_modes := 1,
          timebins := 1, total_timebins := 1,
          rolled_circuit := [⟨"MeasureHomodyne", true, [PyVal.float 0], [0]⟩] } :=
  (exit_measurement_validation _).2.2 (by decide) (by decide)

/-! ## Claim C2: compile's parameter-range check -/

lemma nonFloatCount_zero (cmdParams : List PyVal) : nonFloatCount cmdParams 0 = 0 := by
  simp [nonFloatCount]

lemma nonFloatCount_succ (cmdParams : List PyVal) (k : Nat) (p : PyVal)
    (h : cmdParams.get? k = some p) :
    nonFloatCount cmdParams (k + 1)
      = nonFloatCount cmdParams k + (if p.isFloat then 0 else 1) := by
  unfold nonFloatCount
  rw [List.take_succ]
  rw [List.get?_eq_getElem?] at h
  rw [h]
  by_cases hf : p.isFloat
  · simp [List.filter_append, hf]
  · simp [List.filter_append, hf]

lemma checkParamNames_closed (dev : Device) (tdm_params : List (List ℚ))
    (cmdParams : List PyVal) :
    ∀ (names : List String) (k c : Nat), c = nonFloatCount cmdParams k →
      checkParamNames dev tdm_params cmdParams names k c
        = checkNamesAmended dev tdm_params cmdParams names k := by
  intro names
  induction names with
  | nil => intro k c hc; rfl
  | cons name rest ih =>
    intro k c hc
    subst hc
    simp only [checkParamNames, checkNamesAmended]
    split
    · rfl
    · rename_i range hr
      cases hg : cmdParams.get? k with
      | none => rfl
      | some p =>
        cases p with
        | float v =>
          show (if range.containsQ v then
                  checkParamNames dev tdm_params cmdParams rest (k + 1) (nonFloatCount cmdParams k)
                else .error .parameterOutOfRange)
             = (if range.containsQ v then checkNamesAmended dev tdm_params cmdParams rest (k + 1)
                else .error .parameterOutOfRange)
          by_cases hv : range.containsQ v
          · rw [if_pos hv, if_pos hv]
            exact ih (k + 1) _
              ((nonFloatCount_succ cmdParams k _ hg).trans (by simp [PyVal.isFloat])).symm
          · rw [if_neg hv, if_neg hv]
        | int v =>
          show (match tdm_params.get? (nonFloatCount cmdParams k) with
                | none => Except.error CErr.indexError
                | some seq =>
                  if seq.all (fun x => range.containsQ x) then
                    checkParamNames dev tdm_params cmdParams rest (k + 1)
                      (nonFloatCount cmdParams k + 1)
                  else .error .parameterOutOfRange)
             = (match tdm_params.get? (nonFloatCount cmdParams k) with
                | none => Except.error CErr.indexError
                | some seq =>
                  if seq.all (fun x => range.containsQ x) then
                    checkNamesAmended dev tdm_params cmdParams rest (k + 1)
                  else .error .parameterOutOfRange)
          cases tdm_params.get? (nonFloatCount cmdParams k) with
          | none => rfl
          | some seq =>
            by_cases hall : seq.all (fun x => range.containsQ x)
            · simp only [hall, if_pos]
              exact ih (k + 1) _
                ((nonFloatCount_succ cmdParams k _ hg).trans (by simp [PyVal.isFloat])).symm
            · simp [hall]
        | symbolic idx =>
          show (match tdm_params.get? (nonFloatCount cmdParams k) with
                | none => Except.error CErr.indexError
                | some seq =>
                  if seq.all (fun x => range.containsQ x) then
                    checkParamNames dev tdm_params cmdParams rest (k + 1)
                      (nonFloatCount cmdParams k + 1)
                  else .error .parameterOutOfRange)
             = (match tdm_params.get? (nonFloatCount cmdParams k) with
                | none => Except.error CErr.indexError
                | some seq =>
                  if seq.all (fun x => range.containsQ x) then
                    checkNamesAmended dev tdm_params cmdParams rest (k + 1)
                  else .error .parameterOutOfRange)
          cases tdm_params.get? (nonFloatCount cmdParams k) with
          | none => rfl
          | some seq =>
            by_cases hall : seq.all (fun x => range.containsQ x)
            · simp only [hall, if_pos]
              exact ih (k + 1) _
                ((nonFloatCount_succ cmdParams k _ hg).trans (by simp [PyVal.isFloat])).symm
            · simp [hall]

lemma checkOpParams_closed (dev : Device) (tdm_params : List (List ℚ))
    (op : DeviceOp) (cmd : Cmd) :
    checkOpParams dev tdm_params op cmd = checkOpParamsAmended dev tdm_params op cmd := by
  unfold checkOpParams checkOpParamsAmended
  cases assertPhase op.args.length cmd.args with
  | error e => rfl
  | ok _ =>
    exact checkParamNames_closed dev tdm_params cmd.args op.args 0 0
      (nonFloatCount_zero cmd.args).symm

lemma checkAllOps_closed (dev : Device) (tdm_params : List (List ℚ)) :
    ∀ (l : List (DeviceOp × Cmd)),
      checkAllOps dev tdm_params l = checkAllOpsAmended dev tdm_params l := by
  intro l
  induction l with
  | nil => rfl
  | cons pc rest ih =>
    obtain ⟨op, cmd⟩ := pc
    simp only [checkAllOps, checkAllOpsAmended, checkOpParams_closed dev tdm_params op cmd]
    cases checkOpParamsAmended dev tdm_params op cmd with
    | error e => rfl
    | ok _ => exact ih

/-- C2 amended: compile's parameter check behaves as the closed-form
description `compileAmended`: an argument of runtime type float is a
concrete value and is accepted iff it lies in the device range; EVERY
other argument — a symbolic placeholder, but equally a concrete Python
int — is treated as symbolic and consumes the positional construction
sequence indexed by the number of non-float arguments preceding it in
the same command, the counter restarting at zero for every operation
(not global construction order), and every value of that sequence must
lie in the range. -/
theorem compile_param_check_closed_form (rolled : List Cmd)
    (tdm_params : List (List ℚ)) (dev : Device) :
    compileTDM rolled tdm_params dev = compileAmended rolled tdm_params dev := by
  unfold compileTDM compileAmended
  split_ifs
  · rfl
  · rfl
  · exact checkAllOps_closed dev tdm_params (dev.operations.zip rolled)

/-- C2 counterexample: the rolled circuit's only argument is the
concrete numeric value 5 (a Python int) and the device range for its
named slot contains 5, so the claim demands acceptance; compile
nevertheless rejects, because only float-typed values are treated as
concrete — the int takes the symbolic branch and the out-of-range
construction sequence [99] is checked instead. -/
theorem compile_concrete_int_counterexample :
    compileTDM [⟨"Sgate", false, [PyVal.int 5], [0]⟩] [[99]]
        ⟨[⟨"Sgate", [0], ["r"]⟩], [("r", ParamRange.interval 0 10)]⟩
      = .error .parameterOutOfRange
    ∧ (ParamRange.interval 0 10).containsQ 5 = true := by
  decide

/-! ## Unroll characterization (used by C1, C8, C10) -/

lemma unroll_fold_spec (s : TDMState) :
    ∀ (n : Nat) (init : List Cmd) (q : List Nat),
      (List.range n).foldl (unroll_step s) (init, q)
        = (init ++ (List.range n).flatMap (fun t =>
              s.rolled_circuit.map (fun cmd =>
                apply_op s.tdm_params s.timebins cmd (qIter s.N s.shift q t) t)),
           qIter s.N s.shift q n) := by
  intro n
  induction n with
  | zero => intro init q; simp [qIter]
  | succ n ih =>
    intro init q
    rw [List.range_succ, List.foldl_append, ih]
    simp only [List.foldl_cons, List.foldl_nil, unroll_step]
    rw [List.flatMap_append]
    simp [qIter, List.append_assoc]

lemma unroll_fold_eq (s : TDMState) :
    unroll_fold s
      = ((List.range s.total_timebins).flatMap (fun t =>
            s.rolled_circuit.map (fun cmd =>
              apply_op s.tdm_params s.timebins cmd (qAfter s t) t)),
         qAfter s s.total_timebins) := by
  unfold unroll_fold qAfter
  rw [unroll_fold_spec s s.total_timebins [] s.register]
  simp

lemma flatMap_blocks_get (f : Nat → List Cmd) (L : Nat) (hL : ∀ t, (f t).length = L) :
    ∀ (ts : List Nat) (k j : Nat), k < ts.length → j < L →
      (ts.flatMap f).get? (k * L + j) = (f (ts.getD k 0)).get? j := by
  intro ts
  induction ts with
  | nil => intro k j hk _; simp at hk
  | cons t rest ih =>
    intro k j hk hj
    cases k with
    | zero =>
      simp only [List.flatMap_cons, Nat.zero_mul, Nat.zero_add]
      rw [List.get?_append (by rw [hL t]; exact hj)]
      rfl
    | succ k2 =>
      simp only [List.flatMap_cons]
      rw [List.get?_append_right (by rw [hL t, Nat.succ_mul]; omega)]
      rw [hL t]
      have harith : (k2 + 1) * L + j - L = k2 * L + j := by
        rw [Nat.succ_mul]; omega
      rw [harith]
      have := ih k2 j (by simpa using hk) hj
      simpa [List.getD] using this

lemma sum_map_const (n L : Nat) : ((List.range n).map (fun _ => L)).sum = n * L := by
  induction n with
  | zero => simp
  | succ n ih =>
    rw [List.range_succ]
    simp [ih, Nat.succ_mul]

lemma get?_some_lt {l : List Cmd} {j : Nat} {c : Cmd} (h : l.get? j = some c) :
    j < l.length := by
  by_contra hc
  rw [List.get?_eq_none.mpr (by omega)] at h
  exact Option.noConfusion h

/-! ## Claim C1: per-time-step command emission -/

/-- C1 counterexample program: one rolled command whose FIRST argument
is the concrete value 5 and whose SECOND argument is the symbolic
placeholder p0 bound to the sequence [7]. -/
def s0c1 : TDMState :=
  { N := [1], copies := 1, tdm_params := [[7]], shift := .default,
    timebins := 1, total_timebins := 1, spatial_modes := 1,
    measured_modes := [],
    rolled_circuit := [⟨"BSgate", false, [PyVal.float 5, PyVal.symbolic 0], [0]⟩],
    circuit := [], unrolled_circuit := none, register := [0] }

/-- C1 counterexample: the claim says EVERY symbolic placeholder
argument of an emitted command is replaced by the bound sequence value
(here 7); the unrolled circuit still contains the symbolic placeholder
in the second argument slot, because apply_op inspects only the first
parameter. -/
theorem unresolved_second_argument_counterexample :
    args_fully_resolved (unroll s0c1).circuit = false
    ∧ (unroll s0c1).circuit
      = [⟨"BSgate", false, [PyVal.float 5, PyVal.symbolic 0], [0]⟩] := by
  decide

/-- C1 amended: unroll emits, for each time step t < total_timebins and
each rolled command (index j), exactly one command at position
t * (rolled length) + j of the unrolled circuit — so within a time step
the rolled order is kept and step t is fully emitted before step t+1 —
and that command is `apply_op` of the rolled command at the step's
shifted register list: its FIRST argument, when symbolic, is replaced
by the value at index (t mod timebins) of its bound sequence; every
other argument — concrete or symbolic — passes through unchanged. -/
theorem unroll_emission_schedule (s : TDMState) (t j : Nat) (c : Cmd)
    (ht : t < s.total_timebins) (hj : s.rolled_circuit.get? j = some c) :
    (unroll_fold s).1.length = s.total_timebins * s.rolled_circuit.length
    ∧ (unroll_fold s).1.get? (t * s.rolled_circuit.length + j)
      = some (apply_op s.tdm_params s.timebins c (qAfter s t) t) := by
  constructor
  · rw [unroll_fold_eq]
    simp only [List.length_flatMap]
    have hconst : (List.range s.total_timebins).map
          (List.length ∘ (fun t =>
            s.rolled_circuit.map (fun cmd =>
              apply_op s.tdm_params s.timebins cmd (qAfter s t) t)))
        = (List.range s.total_timebins).map (fun _ => s.rolled_circuit.length) := by
      apply List.map_congr_left
      intro a _
      simp
    rw [hconst, sum_map_const]
  · rw [unroll_fold_eq]
    have hjlt : j < s.rolled_circuit.length := get?_some_lt hj
    rw [flatMap_blocks_get _ s.rolled_circuit.length (by intro t2; simp)
        (List.range s.total_timebins) t j (by simpa using ht) hjlt]
    have hgd : (List.range s.total_timebins).getD t 0 = t := by
      simp [List.getD_eq_getElem?_getD, List.getElem?_range ht]
    rw [hgd, List.get?_map, hj]
    rfl

/-- C1 witness for the amended theorem: the emitted command at step
t = 1, slot j = 0 of a two-step program sits at position 1 of the
unrolled circuit and carries the second bound value. -/
def s1c1 : TDMState :=
  { N := [1], copies := 1, tdm_params := [[4, 9]], shift := .default,
    timebins := 2, total_timebins := 2, spatial_modes := 1,
    measured_modes := [],
    rolled_circuit := [⟨"Sgate", false, [PyVal.symbolic 0], [0]⟩],
    circuit := [], unrolled_circuit := none, register := [0] }

theorem unroll_emission_schedule_witness :
    (unroll_fold s1c1).1.length = 2 * 1
    ∧ (unroll_fold s1c1).1.get? (1 * 1 + 0)
      = some (apply_op s1c1.tdm_params s1c1.timebins
          ⟨"Sgate", false, [PyVal.symbolic 0], [0]⟩ (qAfter s1c1 1) 1) :=
  unroll_emission_schedule s1c1 1 0 _ (by decide) (by decide)

/-! ## Claim C10: the register pool is preserved by shifting -/

lemma drop_append_take_perm (l : List α) (k : Nat) : (l.drop k ++ l.take k).Perm l := by
  have h := List.take_append_drop k l
  have hp : (l.drop k ++ l.take k).Perm (l.take k ++ l.drop k) := List.perm_append_comm
  rwa [h] at hp

lemma shift_by_perm (l : List α) (n : ℤ) : (shift_by l n).Perm l :=
  drop_append_take_perm l (sliceIdx l n)

lemma shift_by_length (l : List α) (n : ℤ) : (shift_by l n).length = l.length :=
  (shift_by_perm l n).length_eq

lemma slice_decomp (l : List α) (start len : Nat) :
    l.take start ++ ((l.drop start).take len) ++ l.drop (start + len) = l := by
  rw [List.append_assoc]
  conv_rhs => rw [← List.take_append_drop start l]
  congr 1
  conv_rhs => rw [← List.take_append_drop len (l.drop start)]
  congr 1
  rw [List.drop_drop]

lemma sliceAssign_perm (l : List α) (start len : Nat) (repl : List α)
    (hperm : repl.Perm ((l.drop start).take len)) :
    (sliceAssign l start len repl).Perm l := by
  unfold sliceAssign
  have step : (l.take start ++ repl ++ l.drop (start + len)).Perm
      (l.take start ++ ((l.drop start).take len) ++ l.drop (start + len)) := by
    rw [List.append_assoc, List.append_assoc]
    exact List.Perm.append_left _ (hperm.append_right _)
  exact step.trans (by rw [slice_decomp])

lemma apply_band_shifts_perm :
    ∀ (slices : List (Nat × Nat)) (q : List Nat), (apply_band_shifts slices q).Perm q := by
  intro slices
  induction slices with
  | nil => intro q; exact List.Perm.refl q
  | cons sl rest ih =>
    intro q
    obtain ⟨start, len⟩ := sl
    exact (ih _).trans (sliceAssign_perm q start len _ (shift_by_perm _ 1))

lemma shift_step_perm (N : List Nat) (shift : ShiftPolicy) (q : List Nat) :
    (shift_step N shift q).Perm q := by
  cases shift with
  | default => exact apply_band_shifts_perm (band_slices N) q
  | int n => exact shift_by_perm q n
  | other => exact List.Perm.refl q

lemma qIter_perm (N : List Nat) (shift : ShiftPolicy) (q : List Nat) :
    ∀ t, (qIter N shift q t).Perm q := by
  intro t
  induction t with
  | zero => exact List.Perm.refl q
  | succ t ih => exact (shift_step_perm N shift _).trans ih

lemma getD_mem_of_lt : ∀ (q : List Nat) (r : Nat), r < q.length → q.getD r 0 ∈ q := by
  intro q
  induction q with
  | nil => intro r h; simp at h
  | cons a rest ih =>
    intro r h
    cases r with
    | zero => simp
    | succ r2 =>
      rw [List.getD_cons_succ]
      exact List.mem_cons_of_mem a (ih r2 (by simpa using h))

/-- C10: throughout unroll, after every time step's shift the register
list remains a permutation of the program's register pool (hence its
size stays sum(N)) — under the default per-band rotation, under every
integer shift amount, and trivially under any other shift value — and
every emitted unrolled command targets only registers drawn from the
pool (given that the rolled commands index within the pool). -/
theorem unroll_register_invariant (s : TDMState)
    (hlen : s.register.length = s.N.sum)
    (hreg : ∀ cmd, cmd ∈ s.rolled_circuit → ∀ r, r ∈ cmd.reg → r < s.N.sum) :
    (∀ t, (qAfter s t).Perm s.register)
    ∧ (∀ t, (qAfter s t).length = s.N.sum)
    ∧ (∀ c, c ∈ (unroll_fold s).1 → ∀ m, m ∈ c.reg → m ∈ s.register) := by
  have hperm : ∀ t, (qAfter s t).Perm s.register :=
    fun t => qIter_perm s.N s.shift s.register t
  refine ⟨hperm, fun t => ((hperm t).length_eq).trans hlen, ?_⟩
  intro c hc m hm
  rw [unroll_fold_eq] at hc
  obtain ⟨t, ht, hc2⟩ := List.mem_flatMap.mp hc
  obtain ⟨cmd, hcmd, rfl⟩ := List.mem_map.mp hc2
  simp only [apply_op, get_modes] at hm
  obtain ⟨r, hr, rfl⟩ := List.mem_map.mp hm
  have hrlt : r < (qAfter s t).length := by
    rw [(hperm t).length_eq, hlen]
    exact hreg cmd hcmd r hr
  exact (hperm t).subset (getD_mem_of_lt _ r hrlt)

/-- C10 witness: a two-band program (N = [2, 1]); after 3 steps the
register list is a permutation of the pool, and every register targeted
by the unrolled circuit lies in the pool. -/
def sc10 : TDMState :=
  { N := [2, 1], copies := 1, tdm_params := [[3, 6]], shift := .default,
    timebins := 2, total_timebins := 2, spatial_modes := 1,
    measured_modes := [],
    rolled_circuit := [⟨"BSgate", false, [PyVal.symbolic 0], [0, 2]⟩,
                       ⟨"MeasureHomodyne", true, [PyVal.float 0], [1]⟩],
    circuit := [], unrolled_circuit := none, register := [0, 1, 2] }

theorem unroll_register_invariant_witness :
    (qAfter sc10 3).Perm sc10.register
    ∧ ∀ c, c ∈ (unroll_fold sc10).1 → ∀ m, m ∈ c.reg → m ∈ sc10.register :=
  ⟨(unroll_register_invariant sc10 (by decide) (by decide)).1 3,
   (unroll_register_invariant sc10 (by decide) (by decide)).2.2⟩

/-! ## Claim C8: single band, default shift vs integer shift 1 -/

lemma take_length_of_eq {l : List α} {n : Nat} (h : l.length = n) : l.take n = l := by
  rw [← h, List.take_length]

lemma default_shift_single (n : Nat) (q : List Nat) (hq : q.length = n) :
    default_shift_step [n] q = shift_by q 1 := by
  unfold default_shift_step band_slices apply_band_shifts
  simp only [List.length_cons, List.length_nil, List.range_succ, List.range_zero,
    List.nil_append, List.map_cons, List.map_nil, List.take_zero, List.sum_nil,
    List.getD_cons_zero]
  show apply_band_shifts [] (sliceAssign q 0 n (shift_by ((q.drop 0).take n) 1)) = shift_by q 1
  unfold apply_band_shifts
  rw [List.drop_zero, take_length_of_eq hq]
  unfold sliceAssign
  rw [List.take_zero, List.drop_eq_nil_of_le (by rw [hq]; omega)]
  simp

lemma qIter_single_eq (n : Nat) (q : List Nat) (hq : q.length = n) :
    ∀ t, qIter [n] ShiftPolicy.default q t = qIter [n] (ShiftPolicy.int 1) q t := by
  intro t
  induction t with
  | zero => rfl
  | succ t ih =>
    have hlen : (qIter [n] ShiftPolicy.default q t).length = n :=
      ((qIter_perm [n] ShiftPolicy.default q t).length_eq).trans hq
    show shift_step [n] ShiftPolicy.default (qIter [n] ShiftPolicy.default q t)
        = shift_step [n] (ShiftPolicy.int 1) (qIter [n] (ShiftPolicy.int 1) q t)
    rw [← ih]
    show default_shift_step [n] (qIter [n] ShiftPolicy.default q t)
        = shift_by (qIter [n] ShiftPolicy.default q t) 1
    exact default_shift_single n _ hlen

/-- C8: for a program with exactly one spatial band (and the register
pool sized to it), unrolling under the default shift policy emits
exactly the same circuit — command for command: operation, arguments
and target registers — as unrolling under the integer shift policy with
amount 1. -/
theorem default_shift_eq_int_one (s : TDMState)
    (hN : s.N.length = 1) (hlen : s.register.length = s.N.sum)
    (hcache : s.unrolled_circuit = none) :
    (unroll { s with shift := ShiftPolicy.default }).circuit
      = (unroll { s with shift := ShiftPolicy.int 1 }).circuit := by
  obtain ⟨n, hn⟩ := List.length_eq_one.mp hN
  have hql : s.register.length = n := by rw [hlen, hn]; simp
  simp only [unroll, hcache]
  show (unroll_fold { s with shift := ShiftPolicy.default }).1
      = (unroll_fold { s with shift := ShiftPolicy.int 1 }).1
  rw [unroll_fold_eq, unroll_fold_eq]
  show (List.range s.total_timebins).flatMap (fun t =>
        s.rolled_circuit.map (fun cmd =>
          apply_op s.tdm_params s.timebins cmd (qIter s.N ShiftPolicy.default s.register t) t))
      = (List.range s.total_timebins).flatMap (fun t =>
        s.rolled_circuit.map (fun cmd =>
          apply_op s.tdm_params s.timebins cmd (qIter s.N (ShiftPolicy.int 1) s.register t) t))
  rw [List.flatMap_def, List.flatMap_def]
  congr 1
  apply List.map_congr_left
  intro t _
  apply List.map_congr_left
  intro cmd _
  rw [hn, qIter_single_eq n s.register hql t]

/-- C8 witness: a concrete single-band two-mode program unrolled under
both policies yields the same circuit. -/
def sc8 : TDMState :=
  { N := [2], copies := 2, tdm_params := [[3, 6]], shift := .default,
    timebins := 2, total_timebins := 4, spatial_modes := 1,
    measured_modes := [],
    rolled_circuit := [⟨"Sgate", false, [PyVal.symbolic 0], [1]⟩,
                       ⟨"MeasureHomodyne", true, [PyVal.float 0], [0]⟩],
    circuit := [], unrolled_circuit := none, register := [0, 1] }

theorem default_shift_eq_int_one_witness :
    (unroll { sc8 with shift := ShiftPolicy.default }).circuit
      = (unroll { sc8 with shift := ShiftPolicy.int 1 }).circuit :=
  default_shift_eq_int_one sc8 (by decide) (by decide) (by decide)

/-! ## Claim C6: sample reshaping follows the visitation schedule -/

/-- The outcome the schedule position `i` should deliver: for the
register visited at position i, the raw outcome indexed by how many
earlier schedule positions visited the same register (FIFO order,
expressed by counting instead of by popping). -/
def scheduled_value (samples : List (List ℚ)) (order : List Nat) (i : Nat) : ℚ :=
  (samples.getD (order.getD i 0) []).getD ((order.take i).count (order.getD i 0)) 0

/-- The reshaped dictionary described position-by-position: schedule
position i appends `scheduled_value` i to channel `modes[(i0+i) % nb]`. -/
def reshape_spec_fold (samples : List (List ℚ)) (modes : List Nat) (nb : Nat)
    (order : List Nat) (i0 : Nat) (acc : List (Nat × List ℚ)) : List (Nat × List ℚ) :=
  (List.range order.length).foldl (fun a j =>
    dictAppend a (modes.getD ((i0 + j) % nb) 0) (scheduled_value samples order j)) acc

lemma getD_set_self : ∀ (l : List (List ℚ)) (m : Nat) (xs : List ℚ),
    m < l.length → (l.set m xs).getD m [] = xs := by
  intro l
  induction l with
  | nil => intro m xs h; simp at h
  | cons a rest ih =>
    intro m xs h
    cases m with
    | zero => rfl
    | succ m2 =>
      show ((a :: rest).set (m2 + 1) xs).getD (m2 + 1) [] = xs
      rw [List.set_cons_succ, List.getD_cons_succ]
      exact ih m2 xs (by simpa using h)

lemma getD_set_ne : ∀ (l : List (List ℚ)) (m n : Nat) (xs : List ℚ),
    m ≠ n → (l.set m xs).getD n [] = l.getD n [] := by
  intro l
  induction l with
  | nil => intro m n xs _; rfl
  | cons a rest ih =>
    intro m n xs h
    cases m with
    | zero =>
      cases n with
      | zero => exact absurd rfl h
      | succ n2 => rw [List.set_cons_zero, List.getD_cons_succ, List.getD_cons_succ]
    | succ m2 =>
      cases n with
      | zero => rw [List.set_cons_succ, List.getD_cons_zero, List.getD_cons_zero]
      | succ n2 =>
        rw [List.set_cons_succ, List.getD_cons_succ, List.getD_cons_succ]
        exact ih m2 n2 xs (fun he => h (by rw [he]))

lemma getD_nonempty_lt : ∀ (l : List (List ℚ)) (m : Nat),
    l.getD m [] ≠ [] → m < l.length := by
  intro l
  induction l with
  | nil => intro m h; simp [List.getD] at h
  | cons a rest ih =>
    intro m h
    cases m with
    | zero => simp
    | succ m2 =>
      rw [List.getD_cons_succ] at h
      exact Nat.succ_lt_succ (ih m2 h)

lemma reshape_go_err (modes : List Nat) (nb : Nat) :
    ∀ (order : List Nat) (i0 : Nat) (samples : List (List ℚ)) (acc : List (Nat × List ℚ)),
      (reshape_go modes nb order i0 samples acc = .error .reshapeInconsistency
        ↔ ∃ m ∈ order, (samples.getD m []).length < order.count m) := by
  intro order
  induction order with
  | nil => intro i0 samples acc; simp [reshape_go]
  | cons m rest ih =>
    intro i0 samples acc
    cases hg : samples.getD m [] with
    | nil =>
      have hpop : popFirst samples m = none := by unfold popFirst; rw [hg]
      simp only [reshape_go, hpop]
      constructor
      · intro _
        refine ⟨m, by simp, ?_⟩
        rw [hg, List.count_cons_self]
        simp
      · intro _; trivial
    | cons y ys =>
      have hm : m < samples.length := getD_nonempty_lt samples m (by rw [hg]; simp)
      have hpop : popFirst samples m = some (y, samples.set m ys) := by
        unfold popFirst; rw [hg]
      simp only [reshape_go, hpop]
      rw [ih]
      constructor
      · rintro ⟨n, hn, hcount⟩
        by_cases hnm : n = m
        · subst hnm
          rw [getD_set_self samples n ys hm] at hcount
          refine ⟨n, by simp, ?_⟩
          rw [hg, List.count_cons_self]
          simp only [List.length_cons]
          omega
        · refine ⟨n, by simp [hn], ?_⟩
          rw [getD_set_ne samples m n ys (fun he => hnm he.symm)] at hcount
          rw [List.count_cons, if_neg (fun he => hnm (beq_iff_eq.mp he).symm), Nat.add_zero]
          exact hcount
      · rintro ⟨n, hn, hcount⟩
        by_cases hnm : n = m
        · subst hnm
          rw [hg, List.count_cons_self] at hcount
          simp only [List.length_cons] at hcount
          have hys : ys.length < rest.count n := by omega
          have hmem : n ∈ rest := by
            by_contra hnot
            rw [List.count_eq_zero_of_not_mem hnot] at hys
            omega
          exact ⟨n, hmem, by rw [getD_set_self samples n ys hm]; exact hys⟩
        · have hnrest : n ∈ rest := by
            rcases List.mem_cons.mp hn with h1 | h2
            · exact absurd h1 hnm
            · exact h2
          refine ⟨n, hnrest, ?_⟩
          rw [getD_set_ne samples m n ys (fun he => hnm he.symm)]
          rw [List.count_cons, if_neg (fun he => hnm (beq_iff_eq.mp he).symm), Nat.add_zero] at hcount
          exact hcount

lemma scheduled_value_shift (samples : List (List ℚ)) (m : Nat) (rest : List Nat)
    (y : ℚ) (ys : List ℚ) (hg : samples.getD m [] = y :: ys) (hm : m < samples.length)
    (j : Nat) :
    scheduled_value samples (m :: rest) (j + 1)
      = scheduled_value (samples.set m ys) rest j := by
  unfold scheduled_value
  rw [List.getD_cons_succ, List.take_succ_cons]
  by_cases hnm : rest.getD j 0 = m
  · rw [hnm, List.count_cons_self, getD_set_self samples m ys hm, hg,
      List.getD_cons_succ]
  · rw [List.count_cons, if_neg (fun he => hnm (beq_iff_eq.mp he).symm), Nat.add_zero]
    rw [getD_set_ne samples m _ ys (fun he => hnm he.symm)]

lemma reshape_spec_fold_cons (samples : List (List ℚ)) (modes : List Nat) (nb : Nat)
    (m : Nat) (rest : List Nat) (i0 : Nat) (acc : List (Nat × List ℚ))
    (y : ℚ) (ys : List ℚ) (hg : samples.getD m [] = y :: ys) (hm : m < samples.length) :
    reshape_spec_fold samples modes nb (m :: rest) i0 acc
      = reshape_spec_fold (samples.set m ys) modes nb rest (i0 + 1)
          (dictAppend acc (modes.getD (i0 % nb) 0) y) := by
  unfold reshape_spec_fold
  rw [List.length_cons, List.range_succ_eq_map, List.foldl_cons, List.foldl_map]
  have h0 : scheduled_value samples (m :: rest) 0 = y := by
    unfold scheduled_value
    rw [List.getD_cons_zero, List.take_zero, List.count_nil, hg, List.getD_cons_zero]
  have hinit : dictAppend acc (modes.getD ((i0 + 0) % nb) 0)
        (scheduled_value samples (m :: rest) 0)
      = dictAppend acc (modes.getD (i0 % nb) 0) y := by
    rw [Nat.add_zero, h0]
  rw [hinit]
  apply List.foldl_ext
  intro a j hj
  rw [scheduled_value_shift samples m rest y ys hg hm j]
  have harith : i0 + (j + 1) = i0 + 1 + j := by omega
  rw [harith]

lemma reshape_go_ok (modes : List Nat) (nb : Nat) :
    ∀ (order : List Nat) (i0 : Nat) (samples : List (List ℚ)) (acc : List (Nat × List ℚ)),
      (∀ m ∈ order, order.count m ≤ (samples.getD m []).length) →
      reshape_go modes nb order i0 samples acc
        = .ok (reshape_spec_fold samples modes nb order i0 acc) := by
  intro order
  induction order with
  | nil => intro i0 samples acc _; simp [reshape_go, reshape_spec_fold]
  | cons m rest ih =>
    intro i0 samples acc hcnt
    have hcm := hcnt m (by simp)
    rw [List.count_cons_self] at hcm
    have hne : samples.getD m [] ≠ [] := by
      intro he
      rw [he] at hcm
      simp at hcm
    obtain ⟨y, ys, hg⟩ : ∃ y ys, samples.getD m [] = y :: ys := by
      cases h : samples.getD m [] with
      | nil => exact absurd h hne
      | cons y ys => exact ⟨y, ys, rfl⟩
    have hm : m < samples.length := getD_nonempty_lt samples m hne
    have hpop : popFirst samples m = some (y, samples.set m ys) := by
      unfold popFirst; rw [hg]
    simp only [reshape_go, hpop]
    rw [ih (i0 + 1) (samples.set m ys) (dictAppend acc (modes.getD (i0 % nb) 0) y) ?_]
    · rw [reshape_spec_fold_cons samples modes nb m rest i0 acc y ys hg hm]
    · intro n hn
      by_cases hnm : n = m
      · subst hnm
        rw [getD_set_self samples n ys hm]
        rw [hg] at hcm
        simp only [List.length_cons] at hcm
        omega
      · rw [getD_set_ne samples m n ys (fun he => hnm he.symm)]
        have := hcnt n (by simp [hn])
        rw [List.count_cons, if_neg (fun he => hnm (beq_iff_eq.mp he).symm), Nat.add_zero] at this
        exact this

/-- C6: reshape_samples walks the schedule produced by _get_mode_order
(cut to the total number of recorded outcomes) exactly once; it fails
with the data-inconsistency error exactly when the schedule visits some
register more often than that register has recorded outcomes; otherwise
the outcome delivered at schedule position i is the FIFO-next raw
outcome of the visited register (the one indexed by the number of
earlier visits to it) and is appended to logical channel
`modes[i % number of spatial bands]`. -/
theorem reshape_follows_schedule (all_samples : List (List ℚ)) (modes N : List Nat) :
    (reshape_samples all_samples modes N = .error .reshapeInconsistency
      ↔ ∃ m ∈ _get_mode_order ((all_samples.map List.length).sum) N,
          (all_samples.getD m []).length
            < (_get_mode_order ((all_samples.map List.length).sum) N).count m)
    ∧ ((∀ m ∈ _get_mode_order ((all_samples.map List.length).sum) N,
          (_get_mode_order ((all_samples.map List.length).sum) N).count m
            ≤ (all_samples.getD m []).length) →
        reshape_samples all_samples modes N
          = .ok (reshape_spec_fold all_samples modes N.length
              (_get_mode_order ((all_samples.map List.length).sum) N) 0 [])) := by
  unfold reshape_samples
  exact ⟨reshape_go_err modes N.length _ 0 all_samples [],
         fun h => reshape_go_ok modes N.length _ 0 all_samples [] h⟩

/-- C6 witness: two registers with two recorded outcomes each, two
bands of one mode — the schedule [0,1,0,1] is satisfiable and the
reshaped dictionary equals the position-by-position description. -/
theorem reshape_follows_schedule_witness :
    reshape_samples [[1, 2], [3, 4]] [0, 1] [1, 1]
      = .ok (reshape_spec_fold [[1, 2], [3, 4]] [0, 1] 2
          (_get_mode_order 4 [1, 1]) 0 []) :=
  (reshape_follows_schedule [[1, 2], [3, 4]] [0, 1] [1, 1]).2 (by decide)

end TDM
